import Mathlib

/-
Shallow embedding of the edc-screening eligibility engine
(src/edc_screening/screening_eligibility.py and
src/edc_screening/gender_evaluator.py).

Field values are Python-like: None, strings, or integers.  Truthiness and
equality follow Python semantics on these kinds.  Dictionaries that the
source iterates in insertion order are association lists with
update-in-place semantics (existing key keeps its position).
-/

namespace EdcScreening

/-- A resolved field value: Python None, a string, or an integer. -/
inductive Value where
  | vnone : Value
  | vstr : String → Value
  | vint : Int → Value
deriving DecidableEq

/-- Python truthiness of a value: None and empty string and 0 are falsy. -/
def Value.truthy : Value → Bool
  | .vnone => false
  | .vstr s => !s.isEmpty
  | .vint n => decide (n ≠ 0)

/-- Python string interpolation of a value, as in an f-string. -/
def Value.pyStr : Value → String
  | .vnone => "None"
  | .vstr s => s
  | .vint n => toString n

/-- The accepted-value payload of an `FC`: a single string, a list/tuple of
values, or `range(lo, hi)` (source: FC.value, screening_eligibility.py). -/
inductive FCValue where
  | str : String → FCValue
  | list : List Value → FCValue
  | rng : Int → Int → FCValue
deriving DecidableEq

/-- Python truthiness of an accepted-value payload: empty string, empty
list and empty range are falsy. -/
def FCValue.truthy : FCValue → Bool
  | .str s => !s.isEmpty
  | .list vs => !vs.isEmpty
  | .rng lo hi => decide (lo < hi)

/-- Membership test of a value in an accepted-value payload.  For a single
string it is Python equality; for a list/tuple it is `in`; for a range it
is integer membership with step 1. -/
def FCValue.contains : FCValue → Value → Bool
  | .str s, v => v == .vstr s
  | .list vs, v => vs.contains v
  | .rng lo hi, .vint n => decide (lo ≤ n) && decide (n < hi)
  | .rng _ _, _ => false

/-- Criterion descriptor, source class `FC` (screening_eligibility.py
lines 9-30): accepted value, ineligibility message, ignore-if-missing
flag and missing-sentinel value. -/
structure FC where
  value : Option FCValue
  msg : Option String
  ignore_if_missing : Bool
  missing_value : Option String
deriving DecidableEq

/-- Python truthiness of an optional string (None and empty are falsy). -/
def optStrTruthy : Option String → Bool
  | none => false
  | some s => !s.isEmpty

/-- Python str.title over a character list: a letter following a
non-letter is uppercased, a letter following a letter is lowercased. -/
def titleChars : List Char → Bool → List Char
  | [], _ => []
  | c :: cs, prevAlpha =>
    (if c.isAlpha then (if prevAlpha then c.toLower else c.toUpper) else c)
      :: titleChars cs c.isAlpha

/-- Python str.title. -/
def pythonTitle (s : String) : String := String.mk (titleChars s.data false)

/-- The source only ever calls .replace with a one-character pattern, so
replace is a character map (underscore to space). -/
def replaceUnderscore (s : String) : String :=
  String.mk (s.data.map (fun c => if c == '_' then ' ' else c))

/-- Default ineligibility message, source line 172:
fldattr.title().replace(underscore, space). -/
def ruleMsgDefault (f : String) : String := replaceUnderscore (pythonTitle f)

/-- Missing-data message, source line 250: backquoted title-cased field
name followed by not answered. -/
def missingMsg (f : String) : String :=
  "`" ++ pythonTitle (replaceUnderscore f) ++ "` not answered"

/-- dict.update with a single key: replace in place when the key exists,
else append (Python dict semantics, insertion order kept). -/
def dictInsert (d : List (String × String)) (k v : String) :
    List (String × String) :=
  if d.any (fun p => p.1 == k) then
    d.map (fun p => if p.1 == k then (k, v) else p)
  else d ++ [(k, v)]

/-- Lookup in an association list of values (first match). -/
def lookupVal (l : List (String × Value)) (k : String) : Option Value :=
  (l.find? (fun p => p.1 == k)).map (fun p => p.2)

/-- setattr on a record modelled as an association list: replace the
attribute in place when present, else append it. -/
def setAttrVal (l : List (String × Value)) (k : String) (v : Value) :
    List (String × Value) :=
  if l.any (fun p => p.1 == k) then
    l.map (fun p => if p.1 == k then (k, v) else p)
  else l ++ [(k, v)]

/-- getattr on the evaluator after field resolution: the last value set
for the name (setattr overwrites); vnone when never set. -/
def attrsOf (av : List (String × Value)) (f : String) : Value :=
  (((av.reverse).find? (fun p => p.1 == f)).map (fun p => p.2)).getD .vnone

/-- Python str.join. -/
def pyJoin (sep : String) : List String → String
  | [] => ""
  | [x] => x
  | x :: y :: xs => x ++ sep ++ pyJoin sep (y :: xs)

/-- The missing_responses dict built by the missing_data property (source
lines 240-248): for each field whose descriptor does not set
ignore_if_missing, a truthy value equal to a truthy missing sentinel is
recorded as None, and a falsy value is recorded as itself. -/
def mrStep (attrs : String → Value) (acc : List (String × Value))
    (p : String × FC) : List (String × Value) :=
  if p.2.ignore_if_missing then acc
  else if (attrs p.1).truthy then
    match p.2.missing_value with
    | some m =>
      if !m.isEmpty && (attrs p.1 == Value.vstr m) then
        acc ++ [(p.1, Value.vnone)]
      else acc
    | none => acc
  else acc ++ [(p.1, attrs p.1)]

/-- The loop of the missing_data property over the whole required-fields
table. -/
def missingResponses (fields : List (String × FC)) (attrs : String → Value) :
    List (String × Value) :=
  fields.foldl (mrStep attrs) []

/-- The missing_data property (source lines 237-254): entries of
missing_responses whose recorded value is falsy, mapped to the
not-answered message.  Both branches record falsy values, so the filter
keeps every entry.  The lazy cache on self has no observable effect since
the resolved attributes never change between accesses. -/
def missing_data (fields : List (String × FC)) (attrs : String → Value) :
    List (String × String) :=
  ((missingResponses fields attrs).filter (fun p => !p.2.truthy)).map
    (fun p => (p.1, missingMsg p.1))

/-- The mutable assessment state: the eligible verdict token and the
reasons_ineligible dict. -/
structure EligState where
  eligible : String
  reasons_ineligible : List (String × String)
deriving DecidableEq

/-- The configurable verdict tokens of a ScreeningEligibility instance. -/
structure Config where
  eligible_value_default : String
  eligible_values_list : List String
  is_eligible_value : String
  is_ineligible_value : String
deriving DecidableEq

/-- Modelled from the spec: token YES from edc_constants (not under src/);
the defaults are the yes/no/tbd tokens. -/
def YES : String := "Yes"

/-- Modelled from the spec: token NO from edc_constants (not under src/). -/
def NO : String := "No"

/-- Modelled from the spec: token TBD from edc_constants (not under src/). -/
def TBD : String := "tbd"

/-- The class-level default configuration of ScreeningEligibility
(source lines 60-67). -/
def defaultConfig : Config :=
  { eligible_value_default := TBD
    eligible_values_list := [YES, NO, TBD]
    is_eligible_value := YES
    is_ineligible_value := NO }

/-- The message used when a field fails its criterion (source lines
172-174): the descriptor message when truthy, else the title-cased field
name; in verbose mode suffixed with the got-value clause. -/
def ruleMsg (verbose : Bool) (attrs : String → Value) (f : String) (fc : FC) :
    String :=
  let m0 := match fc.msg with
    | some m => if m.isEmpty then ruleMsgDefault f else m
    | none => ruleMsgDefault f
  if verbose then m0 ++ ". Got " ++ f ++ "=" ++ (attrs f).pyStr else m0

/-- One evaluation of the per-field rule (source lines 170-180): skip
fields in missing_data, skip falsy accepted values, and on failure record
the message and set the ineligible token.  The source condition
distinguishes the str case from the list/tuple/range case; both reduce to
non-membership in the accepted payload. -/
def ruleStep (cfg : Config) (verbose : Bool) (attrs : String → Value)
    (missingKeys : List String) (st : EligState) (p : String × FC) :
    EligState :=
  if missingKeys.contains p.1 then st
  else
    match p.2.value with
    | none => st
    | some fcv =>
      if fcv.truthy then
        if !(fcv.contains (attrs p.1)) then
          { eligible := cfg.is_ineligible_value
            reasons_ineligible :=
              dictInsert st.reasons_ineligible p.1 (ruleMsg verbose attrs p.1 p.2) }
        else st
      else st

/-- The source repeats the identical test and update twice in immediate
succession for each field (lines 175-186); since the inputs are pure this
is the step applied twice. -/
def ruleStepTwice (cfg : Config) (verbose : Bool) (attrs : String → Value)
    (missingKeys : List String) (st : EligState) (p : String × FC) :
    EligState :=
  ruleStep cfg verbose attrs missingKeys
    (ruleStep cfg verbose attrs missingKeys st p) p

/-- The state after the missing-data merge (source lines 165-168): start
from the eligible token with empty reasons; when missing_data is
non-empty, merge its messages and set the default verdict token. -/
def mergedState (cfg : Config) (fields : List (String × FC))
    (attrs : String → Value) : EligState :=
  let md := missing_data fields attrs
  if md.isEmpty then { eligible := cfg.is_eligible_value, reasons_ineligible := [] }
  else
    { eligible := cfg.eligible_value_default
      reasons_ineligible := md.foldl (fun r p => dictInsert r p.1 p.2) [] }

/-- The assessment state before the subclass hook (source lines 163-186):
the missing-data merge followed by the per-field rule loop, with the
duplicated test as in the source. -/
def preHookState (cfg : Config) (verbose : Bool) (fields : List (String × FC))
    (attrs : String → Value) : EligState :=
  fields.foldl
    (ruleStepTwice cfg verbose attrs ((missing_data fields attrs).map (fun p => p.1)))
    (mergedState cfg fields attrs)

/-- The same assessment with the per-field test performed once, following
the wording of the spec; compared with preHookState for the
refinement-equivalence claim. -/
def preHookStateOnce (cfg : Config) (verbose : Bool)
    (fields : List (String × FC)) (attrs : String → Value) : EligState :=
  fields.foldl
    (ruleStep cfg verbose attrs ((missing_data fields attrs).map (fun p => p.1)))
    (mergedState cfg fields attrs)

/-- Full _assess_eligibility (source lines 163-188): the subclass hook
assess_eligibility runs only when the tentative verdict still equals the
eligible token.  The hook reads and mutates eligible/reasons_ineligible,
modelled as a state transformer; the default hook is the identity. -/
def assessEligibilityFull (cfg : Config) (verbose : Bool)
    (fields : List (String × FC)) (attrs : String → Value)
    (hook : EligState → EligState) : EligState :=
  let st := preHookState cfg verbose fields attrs
  if st.eligible == cfg.is_eligible_value then hook st else st

/-- The errors a construction can raise, one constructor per exception
path of the source.  noneTypeError is the uncaught TypeError raised when
neither a record nor a cleaned_data mapping is supplied and a field must
be resolved (subscripting None, source line 230). -/
inductive EligErr where
  | attrError : String → EligErr
  | modelAttrError : String → EligErr
  | cleanedDataKeyError : String → EligErr
  | noneTypeError : EligErr
  | invalidEligibilityValue : EligErr
  | notSet : EligErr
  | invalidCombination : EligErr
deriving DecidableEq

/-- Resolution of one required field (source set_fld_attrs_on_self, lines
204-235).  selfAttrs is the set of attribute names readable on the
evaluator before the assignment.  With a record: a truthy (non-empty)
cleaned_data mapping wins with dict.get semantics (None when the key is
absent), else the record attribute is read, raising the model-attribute
error when absent.  Without a record: the cleaned_data subscript raises
the key error when absent, and subscripting a missing mapping is an
uncaught TypeError. -/
def resolveFld (selfAttrs : List String)
    (model_obj cleaned_data : Option (List (String × Value))) (f : String) :
    Except EligErr Value :=
  if !(selfAttrs.contains f) then .error (.attrError f)
  else
    match model_obj with
    | some mo =>
      match cleaned_data with
      | some cd =>
        if cd.isEmpty then
          match lookupVal mo f with
          | some v => .ok v
          | none => .error (.modelAttrError f)
        else .ok ((lookupVal cd f).getD .vnone)
      | none =>
        match lookupVal mo f with
        | some v => .ok v
        | none => .error (.modelAttrError f)
    | none =>
      match cleaned_data with
      | some cd =>
        match lookupVal cd f with
        | some v => .ok v
        | none => .error (.cleanedDataKeyError f)
      | none => .error .noneTypeError

/-- set_fld_attrs_on_self over the whole required-fields table, threading
the attribute set (each setattr makes the name readable for later
getattr checks) and collecting the assignments in order. -/
def setFldAttrsOnSelf (selfAttrs : List String)
    (model_obj cleaned_data : Option (List (String × Value))) :
    List (String × FC) → Except EligErr (List (String × Value))
  | [] => .ok []
  | p :: rest =>
    match resolveFld selfAttrs model_obj cleaned_data p.1 with
    | .error e => .error e
    | .ok v =>
      match setFldAttrsOnSelf (p.1 :: selfAttrs) model_obj cleaned_data rest with
      | .error e => .error e
      | .ok av => .ok ((p.1, v) :: av)

/-- Model field name written with the verdict (class attribute
eligible_fld_name, source line 61). -/
def eligible_fld_name : String := "eligible"

/-- Model field name written with the joined reasons (class attribute
reasons_ineligible_fld_name, source line 67). -/
def reasons_ineligible_fld_name : String := "reasons_ineligible"

/-- _set_fld_attrs_on_model (source lines 190-202): write the
pipe-delimited join of the reason strings, or None when the join is
falsy, then write the verdict.  No save is modelled because the source
performs none. -/
def setFldAttrsOnModel (st : EligState) (mo : List (String × Value)) :
    List (String × Value) :=
  let joined := pyJoin "|" (st.reasons_ineligible.map (fun p => p.2))
  let rv : Value := if joined.isEmpty then Value.vnone else Value.vstr joined
  setAttrVal (setAttrVal mo reasons_ineligible_fld_name rv)
    eligible_fld_name (Value.vstr st.eligible)

/-- The observable result of a completed construction: the frozen verdict
and reasons, and the (possibly updated) record when one was supplied. -/
structure Evaluator where
  eligible : String
  reasons_ineligible : List (String × String)
  model_obj : Option (List (String × Value))
deriving DecidableEq

/-- The four post-assessment consistency checks in source order (lines
101-125) followed by the record write (lines 126-127).  The check that
reasons_ineligible is None is unreachable here because the state always
carries a list.  modelHook is the subclass set_fld_attrs_on_model
extension (identity by default). -/
def constructChecks (cfg : Config) (model_obj : Option (List (String × Value)))
    (modelHook : List (String × Value) → List (String × Value))
    (st : EligState) : Except EligErr Evaluator :=
  if !(cfg.eligible_values_list.contains st.eligible) then
    .error .invalidEligibilityValue
  else if st.eligible.isEmpty || !(cfg.eligible_values_list.contains st.eligible) then
    .error .notSet
  else if st.eligible == cfg.is_eligible_value && !st.reasons_ineligible.isEmpty then
    .error .invalidCombination
  else if st.eligible != cfg.is_eligible_value && st.reasons_ineligible.isEmpty then
    .error .invalidCombination
  else
    .ok { eligible := st.eligible
          reasons_ineligible := st.reasons_ineligible
          model_obj := model_obj.map (fun mo => modelHook (setFldAttrsOnModel st mo)) }

/-- The ScreeningEligibility constructor (source lines 69-127): resolve
the required fields, assess, then run the post-assessment checks and the
record write. -/
def construct (cfg : Config) (verbose : Bool) (fields : List (String × FC))
    (selfAttrs : List String)
    (model_obj cleaned_data : Option (List (String × Value)))
    (hook : EligState → EligState)
    (modelHook : List (String × Value) → List (String × Value)) :
    Except EligErr Evaluator :=
  match setFldAttrsOnSelf selfAttrs model_obj cleaned_data fields with
  | .error e => .error e
  | .ok av =>
    constructChecks cfg model_obj modelHook
      (assessEligibilityFull cfg verbose fields (attrsOf av) hook)

/-- is_eligible (source lines 158-161): true iff the verdict equals the
eligible token. -/
def is_eligible (cfg : Config) (ev : Evaluator) : Bool :=
  ev.eligible == cfg.is_eligible_value

/-- Modelled from the spec: token MALE from edc_constants (not under
src/); one of the two accepted gender categories. -/
def MALE : String := "M"

/-- Modelled from the spec: token FEMALE from edc_constants (not under
src/); the other accepted gender category. -/
def FEMALE : String := "F"

/-- Python membership of an optional gender in a string list: None is in
no list of strings. -/
def inGenderList (g : Option String) (l : List String) : Bool :=
  match g with
  | some s => l.contains s
  | none => false

/-- Python string interpolation of the gender argument. -/
def optGenderStr : Option String → String
  | none => "None"
  | some s => s

/-- The observable result of GenderEvaluator.__init__
(gender_evaluator.py): the boolean flag and the optional reasons list. -/
structure GenderEvaluatorResult where
  eligible : Bool
  reasons_ineligible : Option (List String)
deriving DecidableEq

/-- GenderEvaluator.__init__ (gender_evaluator.py lines 4-16): eligible
starts False and is set when the gender is in the class list; when not
eligible, reasons_ineligible becomes a list holding the invalid-gender
message when the gender is outside the literal MALE/FEMALE list. -/
def genderEvaluator (gender : Option String) : GenderEvaluatorResult :=
  let eligible := if inGenderList gender [MALE, FEMALE] then true else false
  if !eligible then
    { eligible := eligible
      reasons_ineligible :=
        some (if !(inGenderList gender [MALE, FEMALE]) then
            [optGenderStr gender ++ " is an invalid gender."]
          else []) }
  else { eligible := eligible, reasons_ineligible := none }

deriving instance DecidableEq for Except

/-- The per-field failure condition of the rule loop: the field is not in
missing_data, its accepted payload is truthy, and the resolved value is
not accepted. -/
def stepFails (attrs : String → Value) (missingKeys : List String)
    (p : String × FC) : Bool :=
  !(missingKeys.contains p.1) &&
    (match p.2.value with
     | some fcv => fcv.truthy && !(fcv.contains (attrs p.1))
     | none => false)

/-- A rule step either records the failure and sets the ineligible token,
or leaves the state unchanged. -/
theorem ruleStep_eq (cfg : Config) (verbose : Bool) (attrs : String → Value)
    (mk : List String) (st : EligState) (p : String × FC) :
    ruleStep cfg verbose attrs mk st p =
      (if stepFails attrs mk p then
        { eligible := cfg.is_ineligible_value
          reasons_ineligible :=
            dictInsert st.reasons_ineligible p.1 (ruleMsg verbose attrs p.1 p.2) }
      else st) := by
  unfold ruleStep stepFails
  cases hm : mk.contains p.1 <;> cases hv : p.2.value <;> simp [hm, hv]
  cases ht : FCValue.truthy _ <;> simp [ht]

theorem dictInsert_mem_self (d : List (String × String)) (k v : String) :
    (k, v) ∈ dictInsert d k v := by
  unfold dictInsert
  split
  · next h =>
    induction d with
    | nil => simp at h
    | cons q rest ih =>
      simp only [List.any_cons, Bool.or_eq_true] at h
      rcases h with h | h
      · have hk : q.1 = k := beq_iff_eq.mp h
        simp [hk]
      · simp only [List.map_cons, List.mem_cons]
        exact Or.inr (ih h)
  · simp

theorem dictInsert_mem_preserve (d : List (String × String)) (k v k0 v0 : String)
    (h : (k0, v0) ∈ d) (hne : k0 ≠ k ∨ v0 = v) : (k0, v0) ∈ dictInsert d k v := by
  unfold dictInsert
  split
  · refine List.mem_map.mpr ⟨(k0, v0), h, ?_⟩
    rcases hne with hne | rfl
    · simp [hne]
    · by_cases hk : k0 = k <;> simp [hk]
  · exact List.mem_append_left _ h

theorem dictInsert_anyKey (d : List (String × String)) (k v : String) :
    (dictInsert d k v).any (fun p => p.1 == k) = true := by
  rcases dictInsert_mem_self d k v with h
  exact List.any_eq_true.mpr ⟨(k, v), h, by simp⟩

theorem map_subst_idem (d : List (String × String)) (k v : String) :
    (d.map (fun p => if p.1 == k then (k, v) else p)).map
        (fun p => if p.1 == k then (k, v) else p) =
      d.map (fun p => if p.1 == k then (k, v) else p) := by
  rw [List.map_map]
  refine List.map_congr_left ?_
  intro p _
  by_cases h : p.1 = k <;> simp [h]

theorem map_subst_of_not_any (d : List (String × String)) (k v : String)
    (h : d.any (fun p => p.1 == k) = false) :
    d.map (fun p => if p.1 == k then (k, v) else p) = d := by
  induction d with
  | nil => rfl
  | cons q rest ih =>
    simp only [List.any_cons, Bool.or_eq_false_iff] at h
    simp only [List.map_cons, h.1, List.cons.injEq]
    exact ⟨by simp [beq_eq_false_iff_ne.mp h.1], ih h.2⟩

theorem dictInsert_idem (d : List (String × String)) (k v : String) :
    dictInsert (dictInsert d k v) k v = dictInsert d k v := by
  by_cases h : d.any (fun p => p.1 == k) = true
  · have h1 : dictInsert d k v = d.map (fun p => if p.1 == k then (k, v) else p) := by
      unfold dictInsert; simp [h]
    rw [h1]
    unfold dictInsert
    have h2 : (d.map (fun p => if p.1 == k then (k, v) else p)).any
        (fun p => p.1 == k) = true := by
      rw [← h1]; exact dictInsert_anyKey d k v
    simp only [h2, if_pos]
    exact map_subst_idem d k v
  · have hf : d.any (fun p => p.1 == k) = false := by
      cases hx : d.any (fun p => p.1 == k)
      · rfl
      · exact absurd hx h
    have h1 : dictInsert d k v = d ++ [(k, v)] := by
      unfold dictInsert; simp [hf]
    rw [h1]
    unfold dictInsert
    have h2 : ((d ++ [(k, v)]).any (fun p => p.1 == k)) = true := by
      simp
    simp only [h2, if_pos, List.map_append]
    rw [map_subst_of_not_any d k v hf]
    simp

/-- The duplicated per-field test of the source loop is equivalent to a
single test: the rule step is idempotent. -/
theorem ruleStepTwice_eq (cfg : Config) (verbose : Bool)
    (attrs : String → Value) (mk : List String) (st : EligState)
    (p : String × FC) :
    ruleStepTwice cfg verbose attrs mk st p = ruleStep cfg verbose attrs mk st p := by
  unfold ruleStepTwice
  rw [ruleStep_eq cfg verbose attrs mk st p]
  by_cases h : stepFails attrs mk p = true
  · rw [if_pos h, ruleStep_eq, if_pos h]
    simp [dictInsert_idem]
  · have hf : stepFails attrs mk p = false := by
      cases hx : stepFails attrs mk p
      · rfl
      · exact absurd hx h
    rw [if_neg h, ruleStep_eq, if_neg h]

theorem foldl_congr_fn {α β : Type} (f g : α → β → α) (l : List β) (a : α)
    (h : ∀ s x, f s x = g s x) : l.foldl f a = l.foldl g a := by
  induction l generalizing a with
  | nil => rfl
  | cons x xs ih => simp only [List.foldl_cons, h, ih]

theorem foldl_fixed {α β : Type} (f : α → β → α) (l : List β) (a : α)
    (h : ∀ x ∈ l, ∀ s, f s x = s) : l.foldl f a = a := by
  induction l generalizing a with
  | nil => rfl
  | cons x xs ih =>
    simp only [List.foldl_cons, h x (List.mem_cons_self x xs)]
    exact ih a fun y hy s => h y (List.mem_cons_of_mem x hy) s

theorem ruleStep_eligible (cfg : Config) (verbose : Bool)
    (attrs : String → Value) (mk : List String) (st : EligState)
    (p : String × FC) :
    (ruleStep cfg verbose attrs mk st p).eligible = st.eligible ∨
      (ruleStep cfg verbose attrs mk st p).eligible = cfg.is_ineligible_value := by
  rw [ruleStep_eq]
  split
  · exact Or.inr rfl
  · exact Or.inl rfl

theorem foldl_rule_eligible (cfg : Config) (verbose : Bool)
    (attrs : String → Value) (mk : List String) (fields : List (String × FC))
    (st : EligState) :
    (fields.foldl (ruleStepTwice cfg verbose attrs mk) st).eligible = st.eligible ∨
      (fields.foldl (ruleStepTwice cfg verbose attrs mk) st).eligible =
        cfg.is_ineligible_value := by
  induction fields generalizing st with
  | nil => exact Or.inl rfl
  | cons p rest ih =>
    simp only [List.foldl_cons]
    rcases ih (ruleStepTwice cfg verbose attrs mk st p) with h | h
    · rw [h, ruleStepTwice_eq]
      exact ruleStep_eligible cfg verbose attrs mk st p
    · exact Or.inr h

theorem ruleStep_fail (cfg : Config) (verbose : Bool) (attrs : String → Value)
    (mk : List String) (st : EligState) (p : String × FC)
    (h : stepFails attrs mk p = true) :
    ruleStep cfg verbose attrs mk st p =
      { eligible := cfg.is_ineligible_value
        reasons_ineligible :=
          dictInsert st.reasons_ineligible p.1 (ruleMsg verbose attrs p.1 p.2) } := by
  rw [ruleStep_eq, if_pos h]

theorem ruleStep_nofail (cfg : Config) (verbose : Bool) (attrs : String → Value)
    (mk : List String) (st : EligState) (p : String × FC)
    (h : stepFails attrs mk p = false) :
    ruleStep cfg verbose attrs mk st p = st := by
  rw [ruleStep_eq, h]
  simp

theorem foldl_rule_fail (cfg : Config) (verbose : Bool) (attrs : String → Value)
    (mk : List String) (fields : List (String × FC)) (st : EligState)
    (p : String × FC) (hp : p ∈ fields) (h : stepFails attrs mk p = true) :
    (fields.foldl (ruleStepTwice cfg verbose attrs mk) st).eligible =
      cfg.is_ineligible_value := by
  induction fields generalizing st with
  | nil => cases hp
  | cons q rest ih =>
    simp only [List.foldl_cons]
    rcases List.mem_cons.mp hp with rfl | hp2
    · rcases foldl_rule_eligible cfg verbose attrs mk rest
        (ruleStepTwice cfg verbose attrs mk st p) with h2 | h2
      · rw [h2, ruleStepTwice_eq, ruleStep_fail cfg verbose attrs mk st p h]
      · exact h2
    · exact ih (ruleStepTwice cfg verbose attrs mk st q) hp2

theorem foldl_rule_nofail (cfg : Config) (verbose : Bool)
    (attrs : String → Value) (mk : List String) (fields : List (String × FC))
    (st : EligState) (h : ∀ p ∈ fields, stepFails attrs mk p = false) :
    fields.foldl (ruleStepTwice cfg verbose attrs mk) st = st := by
  refine foldl_fixed _ _ _ ?_
  intro p hp s
  rw [ruleStepTwice_eq, ruleStep_nofail cfg verbose attrs mk s p (h p hp)]

theorem stepFails_contains (attrs : String → Value) (mk : List String)
    (p : String × FC) (h : stepFails attrs mk p = true) :
    mk.contains p.1 = false := by
  cases hx : mk.contains p.1
  · rfl
  · exfalso
    unfold stepFails at h
    rw [hx] at h
    simp at h

theorem ruleStep_reasons_preserve (cfg : Config) (verbose : Bool)
    (attrs : String → Value) (mk : List String) (st : EligState)
    (p : String × FC) (k0 v0 : String)
    (he : (k0, v0) ∈ st.reasons_ineligible) (hk : mk.contains k0 = true) :
    (k0, v0) ∈ (ruleStep cfg verbose attrs mk st p).reasons_ineligible := by
  rw [ruleStep_eq]
  split
  · next h =>
    have hp1 : mk.contains p.1 = false := stepFails_contains attrs mk p h
    have hne : k0 ≠ p.1 := by
      intro hh
      rw [hh] at hk
      rw [hk] at hp1
      cases hp1
    exact dictInsert_mem_preserve _ _ _ _ _ he (Or.inl hne)
  · exact he

theorem foldl_rule_reasons_preserve (cfg : Config) (verbose : Bool)
    (attrs : String → Value) (mk : List String) (fields : List (String × FC))
    (st : EligState) (k0 v0 : String)
    (he : (k0, v0) ∈ st.reasons_ineligible) (hk : mk.contains k0 = true) :
    (k0, v0) ∈
      (fields.foldl (ruleStepTwice cfg verbose attrs mk) st).reasons_ineligible := by
  induction fields generalizing st with
  | nil => exact he
  | cons q rest ih =>
    simp only [List.foldl_cons]
    refine ih _ ?_
    unfold ruleStepTwice
    exact ruleStep_reasons_preserve cfg verbose attrs mk _ q k0 v0
      (ruleStep_reasons_preserve cfg verbose attrs mk st q k0 v0 he hk) hk

theorem foldl_dictInsert_preserve (l : List (String × String))
    (acc : List (String × String)) (k0 v0 : String) (he : (k0, v0) ∈ acc)
    (hf : ∀ p ∈ l, k0 = p.1 → v0 = p.2) :
    (k0, v0) ∈ l.foldl (fun r p => dictInsert r p.1 p.2) acc := by
  induction l generalizing acc with
  | nil => exact he
  | cons p rest ih =>
    simp only [List.foldl_cons]
    refine ih _ ?_ ?_
    · by_cases hk : k0 = p.1
      · exact dictInsert_mem_preserve _ _ _ _ _ he
          (Or.inr (hf p (List.mem_cons_self p rest) hk))
      · exact dictInsert_mem_preserve _ _ _ _ _ he (Or.inl hk)
    · exact fun q hq => hf q (List.mem_cons_of_mem p hq)

theorem foldl_dictInsert_mem (l : List (String × String))
    (acc : List (String × String)) (k0 v0 : String) (he : (k0, v0) ∈ l)
    (hf : ∀ p ∈ l, ∀ q ∈ l, p.1 = q.1 → p.2 = q.2) :
    (k0, v0) ∈ l.foldl (fun r p => dictInsert r p.1 p.2) acc := by
  induction l generalizing acc with
  | nil => cases he
  | cons p rest ih =>
    simp only [List.foldl_cons]
    rcases List.mem_cons.mp he with heq | he2
    · rw [heq]
      refine foldl_dictInsert_preserve rest _ p.1 p.2 (dictInsert_mem_self _ _ _) ?_
      intro q hq hk
      exact hf p (List.mem_cons_self p rest) q (List.mem_cons_of_mem p hq) hk
    · refine ih _ he2 ?_
      intro a ha b hb
      exact hf a (List.mem_cons_of_mem p ha) b (List.mem_cons_of_mem p hb)

theorem mrStep_mono (attrs : String → Value) (acc : List (String × Value))
    (p : String × FC) (e : String × Value) (he : e ∈ acc) :
    e ∈ mrStep attrs acc p := by
  unfold mrStep
  repeat' split
  all_goals first
  | exact he
  | exact List.mem_append_left _ he

theorem foldl_mr_mono (attrs : String → Value) (l : List (String × FC))
    (acc : List (String × Value)) (e : String × Value) (he : e ∈ acc) :
    e ∈ l.foldl (mrStep attrs) acc := by
  induction l generalizing acc with
  | nil => exact he
  | cons p rest ih => exact ih _ (mrStep_mono attrs acc p e he)

theorem mrStep_records (attrs : String → Value) (acc : List (String × Value))
    (f : String) (fc : FC) (hig : fc.ignore_if_missing = false)
    (hcase : (attrs f).truthy = false ∨
      ∃ m, fc.missing_value = some m ∧ attrs f = .vstr m) :
    ∃ v0, (f, v0) ∈ mrStep attrs acc (f, fc) ∧ v0.truthy = false := by
  unfold mrStep
  simp only [hig]
  cases ht : (attrs f).truthy with
  | false =>
    refine ⟨attrs f, ?_, ht⟩
    simp [ht]
  | true =>
    rcases hcase with hfal | ⟨m, hm, hv⟩
    · rw [ht] at hfal
      cases hfal
    · have hne : m.isEmpty = false := by
        cases hx : m.isEmpty
        · rfl
        · rw [hv] at ht
          simp [Value.truthy, hx] at ht
      refine ⟨Value.vnone, ?_, rfl⟩
      simp only [ht, if_true, hm, hne, hv]
      simp

theorem mr_mem (fields : List (String × FC)) (attrs : String → Value)
    (acc : List (String × Value)) (f : String) (fc : FC)
    (hmem : (f, fc) ∈ fields) (hig : fc.ignore_if_missing = false)
    (hcase : (attrs f).truthy = false ∨
      ∃ m, fc.missing_value = some m ∧ attrs f = .vstr m) :
    ∃ v0, (f, v0) ∈ fields.foldl (mrStep attrs) acc ∧ v0.truthy = false := by
  induction fields generalizing acc with
  | nil => cases hmem
  | cons q rest ih =>
    simp only [List.foldl_cons]
    rcases List.mem_cons.mp hmem with heq | h2
    · rw [← heq]
      obtain ⟨v0, hv0, hfal⟩ := mrStep_records attrs acc f fc hig hcase
      exact ⟨v0, foldl_mr_mono attrs rest _ _ (heq ▸ hv0), hfal⟩
    · exact ih _ h2

theorem missing_data_mem (fields : List (String × FC)) (attrs : String → Value)
    (f : String) (fc : FC) (hmem : (f, fc) ∈ fields)
    (hig : fc.ignore_if_missing = false)
    (hcase : (attrs f).truthy = false ∨
      ∃ m, fc.missing_value = some m ∧ attrs f = .vstr m) :
    (f, missingMsg f) ∈ missing_data fields attrs := by
  obtain ⟨v0, hv0, hfal⟩ := mr_mem fields attrs [] f fc hmem hig hcase
  unfold missing_data missingResponses
  refine List.mem_map.mpr ⟨(f, v0), List.mem_filter.mpr ⟨hv0, ?_⟩, rfl⟩
  simp [hfal]

theorem missing_data_val (fields : List (String × FC)) (attrs : String → Value)
    (k v : String) (h : (k, v) ∈ missing_data fields attrs) :
    v = missingMsg k := by
  unfold missing_data at h
  obtain ⟨p, _, he⟩ := List.mem_map.mp h
  obtain ⟨h1, h2⟩ := Prod.mk.injEq _ _ _ _ ▸ he
  rw [← h2, h1]

theorem contains_of_mem (l : List String) (k : String) (h : k ∈ l) :
    l.contains k = true := by
  induction l with
  | nil => cases h
  | cons x xs ih =>
    rcases List.mem_cons.mp h with rfl | h2
    · simp
    · simp only [List.contains_cons, Bool.or_eq_true]
      exact Or.inr (ih h2)

theorem mem_of_contains (l : List String) (k : String)
    (h : l.contains k = true) : k ∈ l := by
  induction l with
  | nil => cases h
  | cons x xs ih =>
    simp only [List.contains_cons, Bool.or_eq_true] at h
    rcases h with h | h
    · exact (beq_iff_eq.mp h) ▸ List.mem_cons_self x xs
    · exact List.mem_cons_of_mem x (ih h)

theorem not_mem_of_contains_false (l : List String) (k : String)
    (h : l.contains k = false) : ¬ k ∈ l := by
  intro hm
  rw [contains_of_mem l k hm] at h
  cases h

theorem mergedState_empty (cfg : Config) (fields : List (String × FC))
    (attrs : String → Value) (h : missing_data fields attrs = []) :
    mergedState cfg fields attrs =
      { eligible := cfg.is_eligible_value, reasons_ineligible := [] } := by
  unfold mergedState
  simp [h]

theorem mergedState_ne (cfg : Config) (fields : List (String × FC))
    (attrs : String → Value) (h : missing_data fields attrs ≠ []) :
    mergedState cfg fields attrs =
      { eligible := cfg.eligible_value_default
        reasons_ineligible :=
          (missing_data fields attrs).foldl (fun r p => dictInsert r p.1 p.2) [] } := by
  unfold mergedState
  simp [h]

theorem mergedState_reasons_mem (cfg : Config) (fields : List (String × FC))
    (attrs : String → Value) (k v : String)
    (h : (k, v) ∈ missing_data fields attrs) :
    (k, v) ∈ (mergedState cfg fields attrs).reasons_ineligible := by
  have hne : missing_data fields attrs ≠ [] := by
    intro hx
    rw [hx] at h
    cases h
  rw [mergedState_ne cfg fields attrs hne]
  refine foldl_dictInsert_mem _ _ k v h ?_
  intro p hp q hq hk
  rw [missing_data_val fields attrs p.1 p.2 (by simpa using hp),
    missing_data_val fields attrs q.1 q.2 (by simpa using hq), hk]

theorem preHook_nofail (cfg : Config) (verbose : Bool)
    (fields : List (String × FC)) (attrs : String → Value)
    (hpass : ∀ p ∈ fields, ∀ fcv, p.2.value = some fcv → fcv.truthy = true →
      fcv.contains (attrs p.1) = true) :
    preHookState cfg verbose fields attrs = mergedState cfg fields attrs := by
  unfold preHookState
  refine foldl_rule_nofail cfg verbose attrs _ fields _ ?_
  intro p hp
  unfold stepFails
  cases hv : p.2.value with
  | none => simp [hv]
  | some fcv =>
    cases ht : fcv.truthy with
    | false => simp [hv, ht]
    | true => simp [hv, ht, hpass p hp fcv hv ht]

theorem assessFull_id (cfg : Config) (verbose : Bool)
    (fields : List (String × FC)) (attrs : String → Value) :
    assessEligibilityFull cfg verbose fields attrs id =
      preHookState cfg verbose fields attrs := by
  unfold assessEligibilityFull
  dsimp only
  split <;> rfl

theorem lookupVal_map_subst_ne (l : List (String × Value)) (k : String)
    (v : Value) (k0 : String) (h : k0 ≠ k) :
    lookupVal (l.map (fun p => if p.1 == k then (k, v) else p)) k0 =
      lookupVal l k0 := by
  induction l with
  | nil => rfl
  | cons p rest ih =>
    simp only [List.map_cons]
    unfold lookupVal
    by_cases hp : p.1 = k
    · have h1 : (if (p.1 == k) = true then (k, v) else p) = (k, v) := by simp [hp]
      rw [h1, List.find?_cons_of_neg _ (by simp [Ne.symm h]),
        List.find?_cons_of_neg _ (by simp [hp, Ne.symm h])]
      exact ih
    · have h1 : (if (p.1 == k) = true then (k, v) else p) = p := by simp [hp]
      rw [h1]
      by_cases hp0 : p.1 = k0
      · rw [List.find?_cons_of_pos _ (by simp [hp0]),
          List.find?_cons_of_pos _ (by simp [hp0])]
      · rw [List.find?_cons_of_neg _ (by simp [hp0]),
          List.find?_cons_of_neg _ (by simp [hp0])]
        exact ih

theorem lookupVal_map_subst_self (l : List (String × Value)) (k : String)
    (v : Value) (h : l.any (fun p => p.1 == k) = true) :
    lookupVal (l.map (fun p => if p.1 == k then (k, v) else p)) k = some v := by
  induction l with
  | nil => cases h
  | cons p rest ih =>
    simp only [List.map_cons]
    unfold lookupVal
    by_cases hp : p.1 = k
    · have h1 : (if (p.1 == k) = true then (k, v) else p) = (k, v) := by simp [hp]
      rw [h1, List.find?_cons_of_pos _ (by simp)]
      rfl
    · have h1 : (if (p.1 == k) = true then (k, v) else p) = p := by simp [hp]
      rw [h1, List.find?_cons_of_neg _ (by simp [hp])]
      have h2 : rest.any (fun p => p.1 == k) = true := by
        simp only [List.any_cons, Bool.or_eq_true] at h
        rcases h with h | h
        · exact absurd (beq_iff_eq.mp h) hp
        · exact h
      exact ih h2

theorem lookupVal_append (l1 l2 : List (String × Value)) (k : String) :
    lookupVal (l1 ++ l2) k =
      (lookupVal l1 k).or (lookupVal l2 k) := by
  unfold lookupVal
  rw [List.find?_append]
  cases hf : l1.find? (fun p => p.1 == k) <;> simp [Option.or]

theorem lookupVal_setAttrVal_self (l : List (String × Value)) (k : String)
    (v : Value) : lookupVal (setAttrVal l k v) k = some v := by
  unfold setAttrVal
  split
  · next h => exact lookupVal_map_subst_self l k v h
  · next h =>
    rw [lookupVal_append]
    have h1 : lookupVal l k = none := by
      unfold lookupVal
      rw [List.find?_eq_none.mpr]
      · rfl
      · intro p hp
        intro hb
        have : l.any (fun p => p.1 == k) = true := List.any_eq_true.mpr ⟨p, hp, hb⟩
        rw [this] at h
        exact h rfl
    rw [h1]
    unfold lookupVal
    rw [List.find?_cons_of_pos _ (by simp)]
    rfl

theorem lookupVal_setAttrVal_ne (l : List (String × Value)) (k : String)
    (v : Value) (k0 : String) (h : k0 ≠ k) :
    lookupVal (setAttrVal l k v) k0 = lookupVal l k0 := by
  unfold setAttrVal
  split
  · exact lookupVal_map_subst_ne l k v k0 h
  · rw [lookupVal_append]
    have h1 : lookupVal [(k, v)] k0 = none := by
      unfold lookupVal
      rw [List.find?_cons_of_neg _ (by simp [Ne.symm h])]
      rfl
    rw [h1]
    cases hf : lookupVal l k0 <;> simp [Option.or]

theorem isEmpty_false_of_ne_nil {α : Type} (l : List α) (h : l ≠ []) :
    l.isEmpty = false := by
  cases l with
  | nil => exact absurd rfl h
  | cons x xs => rfl

theorem constructChecks_ok_inv (cfg : Config)
    (mo : Option (List (String × Value)))
    (modelHook : List (String × Value) → List (String × Value))
    (st : EligState) (ev : Evaluator)
    (h : constructChecks cfg mo modelHook st = .ok ev) :
    ev = { eligible := st.eligible
           reasons_ineligible := st.reasons_ineligible
           model_obj := mo.map (fun m => modelHook (setFldAttrsOnModel st m)) } ∧
    (st.eligible = cfg.is_eligible_value ↔ st.reasons_ineligible = []) := by
  unfold constructChecks at h
  split_ifs at h with h1 h2 h3 h4
  cases h
  refine ⟨rfl, ?_, ?_⟩
  · intro he
    by_contra hne
    apply h3
    rw [he]
    simp [isEmpty_false_of_ne_nil _ hne]
  · intro hr
    by_contra hne
    apply h4
    rw [hr]
    simp [bne_iff_ne.mpr hne]

theorem constructChecks_mismatch_not_ok (cfg : Config)
    (mo : Option (List (String × Value)))
    (modelHook : List (String × Value) → List (String × Value))
    (st : EligState)
    (hm : (st.eligible = cfg.is_eligible_value ∧ st.reasons_ineligible ≠ []) ∨
      (st.eligible ≠ cfg.is_eligible_value ∧ st.reasons_ineligible = [])) :
    ∀ ev, constructChecks cfg mo modelHook st ≠ .ok ev := by
  intro ev h
  obtain ⟨_, hiff⟩ := constructChecks_ok_inv cfg mo modelHook st ev h
  rcases hm with ⟨he, hr⟩ | ⟨he, hr⟩
  · exact hr (hiff.mp he)
  · exact he (hiff.mpr hr)

theorem constructChecks_mismatch_err (cfg : Config)
    (mo : Option (List (String × Value)))
    (modelHook : List (String × Value) → List (String × Value))
    (st : EligState)
    (hc : cfg.eligible_values_list.contains st.eligible = true)
    (hne : st.eligible.isEmpty = false)
    (hm : (st.eligible = cfg.is_eligible_value ∧ st.reasons_ineligible ≠ []) ∨
      (st.eligible ≠ cfg.is_eligible_value ∧ st.reasons_ineligible = [])) :
    constructChecks cfg mo modelHook st = .error .invalidCombination := by
  unfold constructChecks
  have g1 : ¬((!cfg.eligible_values_list.contains st.eligible) = true) := by
    rw [hc]
    decide
  have g2 : ¬((st.eligible.isEmpty ||
      !cfg.eligible_values_list.contains st.eligible) = true) := by
    rw [hc, hne]
    decide
  rw [if_neg g1, if_neg g2]
  rcases hm with ⟨he, hr⟩ | ⟨he, hr⟩
  · have g3 : (st.eligible == cfg.is_eligible_value &&
        !st.reasons_ineligible.isEmpty) = true := by
      rw [he, isEmpty_false_of_ne_nil _ hr]
      simp
    rw [if_pos g3]
  · have g3 : ¬((st.eligible == cfg.is_eligible_value &&
        !st.reasons_ineligible.isEmpty) = true) := by
      rw [beq_eq_false_iff_ne.mpr he]
      simp
    have g4 : (st.eligible != cfg.is_eligible_value &&
        st.reasons_ineligible.isEmpty) = true := by
      rw [bne_iff_ne.mpr he, hr]
      rfl
    rw [if_neg g3, if_pos g4]

theorem constructChecks_good (cfg : Config)
    (mo : Option (List (String × Value)))
    (modelHook : List (String × Value) → List (String × Value))
    (hwf1 : cfg.eligible_values_list.contains cfg.is_eligible_value = true)
    (hwf2 : cfg.is_eligible_value.isEmpty = false) :
    constructChecks cfg mo modelHook
        { eligible := cfg.is_eligible_value, reasons_ineligible := [] } =
      .ok { eligible := cfg.is_eligible_value
            reasons_ineligible := []
            model_obj := mo.map (fun m => modelHook (setFldAttrsOnModel
              { eligible := cfg.is_eligible_value, reasons_ineligible := [] } m)) } := by
  unfold constructChecks
  have g1 : ¬((!cfg.eligible_values_list.contains cfg.is_eligible_value) = true) := by
    rw [hwf1]
    decide
  have g2 : ¬((cfg.is_eligible_value.isEmpty ||
      !cfg.eligible_values_list.contains cfg.is_eligible_value) = true) := by
    rw [hwf1, hwf2]
    decide
  rw [if_neg g1, if_neg g2, if_neg (by simp), if_neg (by simp)]

theorem construct_eq_of_resolved (cfg : Config) (verbose : Bool)
    (fields : List (String × FC)) (selfAttrs : List String)
    (mo cd : Option (List (String × Value))) (hook : EligState → EligState)
    (modelHook : List (String × Value) → List (String × Value))
    (av : List (String × Value))
    (hres : setFldAttrsOnSelf selfAttrs mo cd fields = .ok av) :
    construct cfg verbose fields selfAttrs mo cd hook modelHook =
      constructChecks cfg mo modelHook
        (assessEligibilityFull cfg verbose fields (attrsOf av) hook) := by
  unfold construct
  rw [hres]

theorem construct_ok_inv (cfg : Config) (verbose : Bool)
    (fields : List (String × FC)) (selfAttrs : List String)
    (mo cd : Option (List (String × Value))) (hook : EligState → EligState)
    (modelHook : List (String × Value) → List (String × Value)) (ev : Evaluator)
    (h : construct cfg verbose fields selfAttrs mo cd hook modelHook = .ok ev) :
    ∃ av, setFldAttrsOnSelf selfAttrs mo cd fields = .ok av ∧
      constructChecks cfg mo modelHook
        (assessEligibilityFull cfg verbose fields (attrsOf av) hook) = .ok ev := by
  unfold construct at h
  cases hres : setFldAttrsOnSelf selfAttrs mo cd fields with
  | error e =>
    rw [hres] at h
    cases h
  | ok av =>
    rw [hres] at h
    exact ⟨av, rfl, h⟩

theorem ruleStep_missing (cfg : Config) (verbose : Bool)
    (attrs : String → Value) (mk : List String) (st : EligState)
    (p : String × FC) (hc : mk.contains p.1 = true) :
    ruleStep cfg verbose attrs mk st p = st := by
  rw [ruleStep_eq]
  have hsf : stepFails attrs mk p = false := by
    unfold stepFails
    rw [hc]
    rfl
  rw [hsf]
  simp

/-- C1: for every construction that completes without raising, the final
verdict equals the configured eligible token iff reasons_ineligible is
empty; and whenever the assessment (any subclass hook included) produces
the eligible token with a non-empty reasons map, or a non-eligible
verdict with an empty reasons map, the constructor raises the
invalid-combination error (when the verdict passes the earlier validity
checks) and never returns an evaluator. -/
theorem claim_C1 (cfg : Config) (verbose : Bool) (fields : List (String × FC))
    (selfAttrs : List String) (mo cd : Option (List (String × Value)))
    (hook : EligState → EligState)
    (modelHook : List (String × Value) → List (String × Value)) :
    (∀ ev, construct cfg verbose fields selfAttrs mo cd hook modelHook = .ok ev →
      (ev.eligible = cfg.is_eligible_value ↔ ev.reasons_ineligible = [])) ∧
    (∀ av st, setFldAttrsOnSelf selfAttrs mo cd fields = .ok av →
      assessEligibilityFull cfg verbose fields (attrsOf av) hook = st →
      ((st.eligible = cfg.is_eligible_value ∧ st.reasons_ineligible ≠ []) ∨
        (st.eligible ≠ cfg.is_eligible_value ∧ st.reasons_ineligible = [])) →
      (cfg.eligible_values_list.contains st.eligible = true →
        st.eligible.isEmpty = false →
        construct cfg verbose fields selfAttrs mo cd hook modelHook =
          .error .invalidCombination) ∧
      (∀ ev, construct cfg verbose fields selfAttrs mo cd hook modelHook ≠
        .ok ev)) := by
  constructor
  · intro ev h
    obtain ⟨av, _, hok⟩ :=
      construct_ok_inv cfg verbose fields selfAttrs mo cd hook modelHook ev h
    obtain ⟨hev, hiff⟩ := constructChecks_ok_inv _ _ _ _ _ hok
    rw [hev]
    exact hiff
  · intro av st hres hst hm
    constructor
    · intro hc hne
      rw [construct_eq_of_resolved cfg verbose fields selfAttrs mo cd hook
        modelHook av hres, hst]
      exact constructChecks_mismatch_err cfg mo modelHook st hc hne hm
    · intro ev
      rw [construct_eq_of_resolved cfg verbose fields selfAttrs mo cd hook
        modelHook av hres, hst]
      exact constructChecks_mismatch_not_ok cfg mo modelHook st hm ev

/-- C1 witness: a hook that returns the eligible token with a non-empty
reasons map makes the constructor raise the invalid-combination error. -/
theorem claim_C1_witness :
    construct defaultConfig false [] [] none none
        (fun _ => { eligible := YES, reasons_ineligible := [("f", "bad")] }) id =
      .error .invalidCombination :=
  ((claim_C1 defaultConfig false [] [] none none
      (fun _ => { eligible := YES, reasons_ineligible := [("f", "bad")] }) id).2
    [] { eligible := YES, reasons_ineligible := [("f", "bad")] }
    (by rfl) (by rfl) (Or.inl ⟨rfl, by decide⟩)).1 (by decide) (by decide)

/-- C2: when resolution succeeds, no declared field is missing, every
resolved value satisfies its accepted value, and the hooks are the
default no-ops, the construction returns an evaluator whose verdict is
the eligible token with empty reasons, and is_eligible is true;
is_eligible is true iff the verdict equals the eligible token. -/
theorem claim_C2 (cfg : Config) (verbose : Bool) (fields : List (String × FC))
    (selfAttrs : List String) (mo cd : Option (List (String × Value)))
    (av : List (String × Value))
    (hres : setFldAttrsOnSelf selfAttrs mo cd fields = .ok av)
    (hmd : missing_data fields (attrsOf av) = [])
    (hpass : fields.all (fun p =>
      match p.2.value with
      | some fcv => !fcv.truthy || fcv.contains (attrsOf av p.1)
      | none => true) = true)
    (hwf1 : cfg.eligible_values_list.contains cfg.is_eligible_value = true)
    (hwf2 : cfg.is_eligible_value.isEmpty = false) :
    construct cfg verbose fields selfAttrs mo cd id id =
      .ok { eligible := cfg.is_eligible_value
            reasons_ineligible := []
            model_obj := mo.map (fun m => setFldAttrsOnModel
              { eligible := cfg.is_eligible_value, reasons_ineligible := [] } m) } ∧
    is_eligible cfg { eligible := cfg.is_eligible_value
                      reasons_ineligible := []
                      model_obj := mo.map (fun m => setFldAttrsOnModel
                        { eligible := cfg.is_eligible_value
                          reasons_ineligible := [] } m) } = true ∧
    (∀ ev2 : Evaluator, is_eligible cfg ev2 = true ↔
      ev2.eligible = cfg.is_eligible_value) := by
  have hpass2 : ∀ p ∈ fields, ∀ fcv, p.2.value = some fcv → fcv.truthy = true →
      fcv.contains (attrsOf av p.1) = true := by
    intro p hp fcv hval htr
    have h1 := List.all_eq_true.mp hpass p hp
    rw [hval] at h1
    simpa [htr] using h1
  have hst : assessEligibilityFull cfg verbose fields (attrsOf av) id =
      { eligible := cfg.is_eligible_value, reasons_ineligible := [] } := by
    rw [assessFull_id, preHook_nofail cfg verbose fields (attrsOf av) hpass2,
      mergedState_empty cfg fields (attrsOf av) hmd]
  refine ⟨?_, ?_, ?_⟩
  · rw [construct_eq_of_resolved cfg verbose fields selfAttrs mo cd id id av
      hres, hst]
    exact constructChecks_good cfg mo id hwf1 hwf2
  · unfold is_eligible
    simp
  · intro ev2
    unfold is_eligible
    exact ⟨fun h => beq_iff_eq.mp h, fun h => beq_iff_eq.mpr h⟩

/-- C2 witness: scenario B of the spec, a gender field whose value is in
the accepted list and no other declared field, yields the eligible token
with empty reasons. -/
theorem claim_C2_witness :
    construct defaultConfig false
        [("gender", FC.mk (some (.list [.vstr "M", .vstr "F"])) none false none)]
        ["gender"] none (some [("gender", .vstr "M")]) id id =
      .ok { eligible := YES, reasons_ineligible := [], model_obj := none } :=
  (claim_C2 defaultConfig false
    [("gender", FC.mk (some (.list [.vstr "M", .vstr "F"])) none false none)]
    ["gender"] none (some [("gender", .vstr "M")]) [("gender", .vstr "M")]
    (by decide) (by decide) (by decide) (by decide) (by decide)).1

/-- C5: the rule-evaluation loop of the source, which performs the
identical pass/fail test twice in immediate succession for each field, is
observably equivalent to the loop performing the test once per field: for
every configuration, required-fields table, resolved values and verbose
flag the two produce the same final verdict and reasons map. -/
theorem claim_C5 (cfg : Config) (verbose : Bool) (fields : List (String × FC))
    (attrs : String → Value) :
    preHookState cfg verbose fields attrs =
      preHookStateOnce cfg verbose fields attrs := by
  unfold preHookState preHookStateOnce
  exact foldl_congr_fn _ _ fields _
    (fun s x => ruleStepTwice_eq cfg verbose attrs _ s x)

/-- C8, code evaluated at the failing input: a required field with
ignore_if_missing set and an accepted value, resolved to an empty value,
is not counted in missing_data, yet the rule loop still tests it and the
construction returns the ineligible token with the field recorded in the
reasons, where the claim (and the FC docstring, which says assessment is
skipped when the field has no value) expects the eligible token with no
reasons. -/
theorem claim_C8_code_result :
    missing_data [("field_one", FC.mk (some (.str "Y")) none true none)]
        (fun _ => .vstr "") = [] ∧
    construct defaultConfig false
        [("field_one", FC.mk (some (.str "Y")) none true none)]
        ["field_one"] none (some [("field_one", .vstr "")]) id id =
      .ok { eligible := NO
            reasons_ineligible := [("field_one", "Field One")]
            model_obj := none } :=
  ⟨by decide, by decide⟩

/-- C10: the gender evaluator is eligible iff the gender is in the
accepted list; otherwise reasons_ineligible is exactly the one-element
list naming the invalid value; gender X yields ineligible with that
message and an accepted gender yields eligible with reasons unset. -/
theorem claim_C10 (g : Option String) :
    (genderEvaluator g).eligible = inGenderList g [MALE, FEMALE] ∧
    (genderEvaluator g).reasons_ineligible =
      (if inGenderList g [MALE, FEMALE] = true then none
       else some [optGenderStr g ++ " is an invalid gender."]) ∧
    genderEvaluator (some "X") =
      { eligible := false, reasons_ineligible := some ["X is an invalid gender."] } ∧
    genderEvaluator (some "M") =
      { eligible := true, reasons_ineligible := none } := by
  refine ⟨?_, ?_, by decide, by decide⟩ <;>
    cases h : inGenderList g [MALE, FEMALE] <;> simp [genderEvaluator, h]

/-- C3: a declared field without ignore_if_missing whose resolved value
is falsy or equals the missing sentinel appears in missing_data mapped to
the backquoted not-answered message built from the title-cased field
name; when missing_data is non-empty its messages are merged into the
reasons (and survive the rule loop) and the verdict is set to the
default/pending token at the merge; fields in missing_data are not
tested again by the rule loop. -/
theorem claim_C3 (cfg : Config) (verbose : Bool) (fields : List (String × FC))
    (attrs : String → Value) (f : String) (fc : FC)
    (hmem : (f, fc) ∈ fields) (hig : fc.ignore_if_missing = false)
    (hcase : (attrs f).truthy = false ∨
      ∃ m, fc.missing_value = some m ∧ attrs f = .vstr m) :
    (f, "`" ++ pythonTitle (replaceUnderscore f) ++ "` not answered") ∈
      missing_data fields attrs ∧
    (mergedState cfg fields attrs).eligible = cfg.eligible_value_default ∧
    (∀ k v, (k, v) ∈ missing_data fields attrs →
      (k, v) ∈ (preHookState cfg verbose fields attrs).reasons_ineligible) ∧
    (∀ st p, p ∈ fields →
      ((missing_data fields attrs).map (fun q => q.1)).contains p.1 = true →
      ruleStepTwice cfg verbose attrs
        ((missing_data fields attrs).map (fun q => q.1)) st p = st) := by
  have h1 : (f, missingMsg f) ∈ missing_data fields attrs :=
    missing_data_mem fields attrs f fc hmem hig hcase
  have hne : missing_data fields attrs ≠ [] := by
    intro hx
    rw [hx] at h1
    cases h1
  refine ⟨h1, ?_, ?_, ?_⟩
  · rw [mergedState_ne cfg fields attrs hne]
  · intro k v hkv
    unfold preHookState
    refine foldl_rule_reasons_preserve cfg verbose attrs _ fields _ k v
      (mergedState_reasons_mem cfg fields attrs k v hkv) ?_
    exact contains_of_mem _ _ (List.mem_map.mpr ⟨(k, v), hkv, rfl⟩)
  · intro st p _ hc
    rw [ruleStepTwice_eq, ruleStep_missing cfg verbose attrs _ st p hc]

/-- C3 witness: a required field resolved to the empty string is recorded
in missing_data with the not-answered message. -/
theorem claim_C3_witness :
    ("f_a", "`F A` not answered") ∈
      missing_data [("f_a", FC.mk (some (.str "Y")) none false none)]
        (fun _ => .vstr "") :=
  (claim_C3 defaultConfig false
    [("f_a", FC.mk (some (.str "Y")) none false none)] (fun _ => .vstr "")
    "f_a" (FC.mk (some (.str "Y")) none false none)
    (by decide) (by decide) (Or.inl (by decide))).1

theorem stepFails_val (attrs : String → Value) (mk : List String) (f : String)
    (fc : FC) (fcv : FCValue) (hmk : mk.contains f = false)
    (hval : fc.value = some fcv) (htr : fcv.truthy = true) :
    stepFails attrs mk (f, fc) = !(fcv.contains (attrs f)) := by
  unfold stepFails
  dsimp only
  rw [hmk, hval]
  dsimp only
  rw [htr]
  rfl

/-- C4: for a tested field (not in missing_data) with a truthy accepted
value, the pass test is exact equality for a single string, membership
for a list/tuple, and integer-interval membership for a range; a passing
field leaves the state unchanged, a failing field is appended to the
reasons with the descriptor message (defaulting to the title-cased field
name, suffixed with the got-value clause in verbose mode) and the
verdict becomes the ineligible token; scenario A: accepted range 18-65
with value 70 yields reasons age_in_years mapped to Age In Years and the
ineligible verdict. -/
theorem claim_C4 (cfg : Config) (verbose : Bool) (attrs : String → Value)
    (mk : List String) (st : EligState) (f : String) (fc : FC) (fcv : FCValue)
    (hmk : mk.contains f = false) (hval : fc.value = some fcv)
    (htr : fcv.truthy = true) :
    (∀ s, fcv = .str s → (fcv.contains (attrs f) = true ↔ attrs f = .vstr s)) ∧
    (∀ vs, fcv = .list vs → (fcv.contains (attrs f) = true ↔ attrs f ∈ vs)) ∧
    (∀ lo hi, fcv = .rng lo hi → (fcv.contains (attrs f) = true ↔
      ∃ n, attrs f = .vint n ∧ lo ≤ n ∧ n < hi)) ∧
    (fcv.contains (attrs f) = true →
      ruleStepTwice cfg verbose attrs mk st (f, fc) = st) ∧
    (fcv.contains (attrs f) = false →
      ruleStepTwice cfg verbose attrs mk st (f, fc) =
        { eligible := cfg.is_ineligible_value
          reasons_ineligible :=
            dictInsert st.reasons_ineligible f (ruleMsg verbose attrs f fc) }) ∧
    (fc.msg = none → verbose = false →
      ruleMsg verbose attrs f fc = replaceUnderscore (pythonTitle f)) ∧
    (fc.msg = none → verbose = true →
      ruleMsg verbose attrs f fc =
        replaceUnderscore (pythonTitle f) ++ ". Got " ++ f ++ "=" ++
          (attrs f).pyStr) ∧
    construct defaultConfig false
        [("age_in_years", FC.mk (some (.rng 18 65)) none false none)]
        ["age_in_years"] none (some [("age_in_years", .vint 70)]) id id =
      .ok { eligible := NO
            reasons_ineligible := [("age_in_years", "Age In Years")]
            model_obj := none } := by
  refine ⟨?_, ?_, ?_, ?_, ?_, ?_, ?_, by decide⟩
  · rintro s rfl
    unfold FCValue.contains
    exact ⟨fun h => beq_iff_eq.mp h, fun h => beq_iff_eq.mpr h⟩
  · rintro vs rfl
    unfold FCValue.contains
    simp
  · rintro lo hi rfl
    cases hv : attrs f <;> simp [FCValue.contains]
  · intro hc
    rw [ruleStepTwice_eq, ruleStep_nofail cfg verbose attrs mk st (f, fc)
      (by rw [stepFails_val attrs mk f fc fcv hmk hval htr, hc]; rfl)]
  · intro hc
    rw [ruleStepTwice_eq, ruleStep_fail cfg verbose attrs mk st (f, fc)
      (by rw [stepFails_val attrs mk f fc fcv hmk hval htr, hc]; rfl)]
  · intro hm hv
    unfold ruleMsg
    rw [hm, hv]
    simp [ruleMsgDefault]
  · intro hm hv
    unfold ruleMsg
    rw [hm, hv]
    simp [ruleMsgDefault]

/-- C4 witness: scenario A end to end, the range-criterion field with
value 70 produces the ineligible verdict with the Age In Years reason. -/
theorem claim_C4_witness :
    construct defaultConfig false
        [("age_in_years", FC.mk (some (.rng 18 65)) none false none)]
        ["age_in_years"] none (some [("age_in_years", .vint 70)]) id id =
      .ok { eligible := NO
            reasons_ineligible := [("age_in_years", "Age In Years")]
            model_obj := none } :=
  (claim_C4 defaultConfig false (fun _ => .vint 70) []
    { eligible := YES, reasons_ineligible := [] } "age_in_years"
    (FC.mk (some (.rng 18 65)) none false none) (.rng 18 65)
    (by decide) rfl (by decide)).2.2.2.2.2.2.2

/-- C6: the subclass hook assess_eligibility runs iff the tentative
verdict after the missing-data merge and the rule loop still equals the
eligible token; the default hook is a no-op; and when any field is
missing or fails its criterion (with distinct configured tokens) the
tentative verdict is not the eligible token, so the hook does not run. -/
theorem claim_C6 (cfg : Config) (verbose : Bool) (fields : List (String × FC))
    (attrs : String → Value) (hook : EligState → EligState) :
    (∀ st, preHookState cfg verbose fields attrs = st →
      (st.eligible = cfg.is_eligible_value →
        assessEligibilityFull cfg verbose fields attrs hook = hook st) ∧
      (st.eligible ≠ cfg.is_eligible_value →
        assessEligibilityFull cfg verbose fields attrs hook = st)) ∧
    assessEligibilityFull cfg verbose fields attrs id =
      preHookState cfg verbose fields attrs ∧
    (cfg.is_eligible_value ≠ cfg.eligible_value_default →
      cfg.is_eligible_value ≠ cfg.is_ineligible_value →
      (missing_data fields attrs ≠ [] ∨
        ∃ p ∈ fields, stepFails attrs
          ((missing_data fields attrs).map (fun q => q.1)) p = true) →
      (preHookState cfg verbose fields attrs).eligible ≠
        cfg.is_eligible_value) := by
  refine ⟨?_, assessFull_id cfg verbose fields attrs, ?_⟩
  · rintro st rfl
    constructor
    · intro he
      unfold assessEligibilityFull
      dsimp only
      rw [if_pos (beq_iff_eq.mpr he)]
    · intro he
      unfold assessEligibilityFull
      dsimp only
      rw [if_neg (by simp [beq_eq_false_iff_ne.mpr he])]
  · intro hd hi hcond
    rcases hcond with hmd | ⟨p, hp, hf⟩
    · unfold preHookState
      rcases foldl_rule_eligible cfg verbose attrs
        ((missing_data fields attrs).map (fun q => q.1)) fields
        (mergedState cfg fields attrs) with h | h
      · rw [h]
        have h2 : (mergedState cfg fields attrs).eligible =
            cfg.eligible_value_default := by
          rw [mergedState_ne cfg fields attrs hmd]
        rw [h2]
        exact fun hx => hd hx.symm
      · rw [h]
        exact fun hx => hi hx.symm
    · unfold preHookState
      rw [foldl_rule_fail cfg verbose attrs _ fields _ p hp hf]
      exact fun hx => hi hx.symm

/-- C6 witness: with one failing field the tentative verdict is not the
eligible token, so the hook is not invoked. -/
theorem claim_C6_witness :
    (preHookState defaultConfig false
        [("f_a", FC.mk (some (.str "Y")) none false none)]
        (fun _ => .vstr "N")).eligible ≠ defaultConfig.is_eligible_value :=
  (claim_C6 defaultConfig false
    [("f_a", FC.mk (some (.str "Y")) none false none)]
    (fun _ => .vstr "N") id).2.2 (by decide) (by decide)
    (Or.inr ⟨("f_a", FC.mk (some (.str "Y")) none false none),
      (by decide), (by decide)⟩)

/-- C7: resolution of a required field: a missing evaluator attribute
fails with the attribute error; with a record, a supplied non-empty
mapping wins with dict.get semantics (None when the key is absent),
otherwise the record attribute is read and a missing record attribute
fails with the model-attribute error; without a record the mapping
subscript is used and a missing key fails with the cleaned-data key
error; a resolved value is stored on the evaluator and a resolution
error propagates out of the constructor. -/
theorem claim_C7 (selfAttrs : List String)
    (mo cd : Option (List (String × Value))) (f : String) (fc : FC)
    (rest : List (String × FC)) :
    (selfAttrs.contains f = false →
      resolveFld selfAttrs mo cd f = .error (.attrError f)) ∧
    (∀ m, selfAttrs.contains f = true → cd = some m → m ≠ [] →
      (∀ r, mo = some r →
        resolveFld selfAttrs mo cd f = .ok ((lookupVal m f).getD .vnone))) ∧
    (∀ r, selfAttrs.contains f = true → mo = some r →
      (cd = none ∨ cd = some []) →
      (∀ v, lookupVal r f = some v → resolveFld selfAttrs mo cd f = .ok v) ∧
      (lookupVal r f = none →
        resolveFld selfAttrs mo cd f = .error (.modelAttrError f))) ∧
    (∀ m, selfAttrs.contains f = true → mo = none → cd = some m →
      (∀ v, lookupVal m f = some v → resolveFld selfAttrs mo cd f = .ok v) ∧
      (lookupVal m f = none →
        resolveFld selfAttrs mo cd f = .error (.cleanedDataKeyError f))) ∧
    (∀ e, resolveFld selfAttrs mo cd f = .error e →
      setFldAttrsOnSelf selfAttrs mo cd ((f, fc) :: rest) = .error e) ∧
    (∀ v av, resolveFld selfAttrs mo cd f = .ok v →
      setFldAttrsOnSelf (f :: selfAttrs) mo cd rest = .ok av →
      setFldAttrsOnSelf selfAttrs mo cd ((f, fc) :: rest) = .ok ((f, v) :: av)) ∧
    (∀ fields2 e, setFldAttrsOnSelf selfAttrs mo cd fields2 = .error e →
      ∀ cfg verbose hook modelHook,
        construct cfg verbose fields2 selfAttrs mo cd hook modelHook =
          .error e) := by
  refine ⟨?_, ?_, ?_, ?_, ?_, ?_, ?_⟩
  · intro h
    unfold resolveFld
    simp [h, not_mem_of_contains_false _ _ h]
  · rintro m hc rfl hne r rfl
    unfold resolveFld
    simp [hc, mem_of_contains _ _ hc, hne, isEmpty_false_of_ne_nil m hne]
  · rintro r hc rfl hcd
    rcases hcd with rfl | rfl
    · constructor
      · intro v hv
        unfold resolveFld
        simp [hc, mem_of_contains _ _ hc, hv]
      · intro hv
        unfold resolveFld
        simp [hc, mem_of_contains _ _ hc, hv]
    · constructor
      · intro v hv
        unfold resolveFld
        simp [hc, mem_of_contains _ _ hc, hv]
      · intro hv
        unfold resolveFld
        simp [hc, mem_of_contains _ _ hc, hv]
  · rintro m hc rfl rfl
    constructor
    · intro v hv
      unfold resolveFld
      simp [hc, mem_of_contains _ _ hc, hv]
    · intro hv
      unfold resolveFld
      simp [hc, mem_of_contains _ _ hc, hv]
  · intro e he
    unfold setFldAttrsOnSelf
    rw [he]
  · intro v av hv hav
    unfold setFldAttrsOnSelf
    rw [hv, hav]
  · intro fields2 e he cfg verbose hook modelHook
    unfold construct
    rw [he]

/-- C7 witness: a required field with no matching attribute on the
evaluator fails with the attribute error. -/
theorem claim_C7_witness :
    resolveFld [] none none "f_a" = .error (.attrError "f_a") :=
  (claim_C7 [] none none "f_a" (FC.mk none none false none) []).1 (by decide)

/-- C9: when and only when a record is supplied, a successful
construction returns it updated: the reasons-ineligible field holds the
pipe-delimited join of the reason strings (null when the join is empty,
in particular whenever the reasons map is empty) and the eligible field
holds the verdict; with the default set_fld_attrs_on_model hook no other
field of the record is modified, and no save is modelled because the
source performs none. -/
theorem claim_C9 (cfg : Config) (verbose : Bool) (fields : List (String × FC))
    (selfAttrs : List String) (cd : Option (List (String × Value)))
    (hook : EligState → EligState) (r : List (String × Value)) (ev : Evaluator) :
    (construct cfg verbose fields selfAttrs (some r) cd hook id = .ok ev →
      ∃ r2, ev.model_obj = some r2 ∧
        r2 = setFldAttrsOnModel
          { eligible := ev.eligible
            reasons_ineligible := ev.reasons_ineligible } r ∧
        lookupVal r2 eligible_fld_name = some (.vstr ev.eligible) ∧
        lookupVal r2 reasons_ineligible_fld_name = some
          (if (pyJoin "|" (ev.reasons_ineligible.map (fun p => p.2))).isEmpty
            then Value.vnone
            else .vstr (pyJoin "|" (ev.reasons_ineligible.map (fun p => p.2)))) ∧
        (ev.reasons_ineligible = [] →
          lookupVal r2 reasons_ineligible_fld_name = some Value.vnone) ∧
        (∀ k, k ≠ eligible_fld_name → k ≠ reasons_ineligible_fld_name →
          lookupVal r2 k = lookupVal r k)) ∧
    (∀ modelHook,
      construct cfg verbose fields selfAttrs none cd hook modelHook = .ok ev →
      ev.model_obj = none) := by
  constructor
  · intro h
    obtain ⟨av, _, hok⟩ := construct_ok_inv cfg verbose fields selfAttrs
      (some r) cd hook id ev h
    obtain ⟨hev, _⟩ := constructChecks_ok_inv _ _ _ _ _ hok
    subst hev
    refine ⟨_, rfl, rfl, ?_, ?_, ?_, ?_⟩
    · unfold setFldAttrsOnModel
      exact lookupVal_setAttrVal_self _ _ _
    · unfold setFldAttrsOnModel
      dsimp only [id]
      rw [lookupVal_setAttrVal_ne _ _ _ _ (by decide),
        lookupVal_setAttrVal_self]
    · intro hre
      dsimp only at hre
      unfold setFldAttrsOnModel
      dsimp only [id]
      rw [lookupVal_setAttrVal_ne _ _ _ _ (by decide),
        lookupVal_setAttrVal_self, hre]
      decide
    · intro k hk1 hk2
      unfold setFldAttrsOnModel
      dsimp only [id]
      rw [lookupVal_setAttrVal_ne _ _ _ _ hk1,
        lookupVal_setAttrVal_ne _ _ _ _ hk2]
  · intro modelHook h
    obtain ⟨av, _, hok⟩ := construct_ok_inv cfg verbose fields selfAttrs
      none cd hook modelHook ev h
    obtain ⟨hev, _⟩ := constructChecks_ok_inv _ _ _ _ _ hok
    subst hev
    rfl

/-- C9 witness: with no record supplied, the completed evaluator carries
no record. -/
theorem claim_C9_witness :
    Evaluator.model_obj
      { eligible := YES, reasons_ineligible := [], model_obj := none } = none :=
  (claim_C9 defaultConfig false [] [] none id []
    { eligible := YES, reasons_ineligible := [], model_obj := none }).2
    id (by decide)

end EdcScreening
